import Mathlib

/-!
Shallow embedding of the HTML-extraction core of `src/main.py` (gift-parser).

The HTTP transport and the HTML tree library (aiohttp, BeautifulSoup) are
external collaborators per the specification, so an element is modelled by the
text the code extracts from it (`.text`, `get_text(strip=True)`,
`find(string=True, recursive=False)`), and a page by the lists of such texts for
the CSS selectors the code uses.  Python `float` results are modelled exactly as
rationals (plus infinities and NaN); no property below depends on IEEE rounding.
Python exceptions that the code does not catch are modelled with `Except`.
-/

/-- ASCII-whitespace trim of a character list, both ends (Python `str.strip()`). -/
def stripWsL (l : List Char) : List Char :=
  ((l.dropWhile Char.isWhitespace).reverse.dropWhile Char.isWhitespace).reverse

/-- Python `str.strip()` (ASCII whitespace suffices for the texts involved). -/
def pyStrip (s : String) : String :=
  ⟨stripWsL s.toList⟩

/-- Python `s.replace(c, '')`: remove every occurrence of the character `c`. -/
def pyRemoveChar (c : Char) (s : String) : String :=
  ⟨s.toList.filter (fun a => a != c)⟩

/-- Python `s[1:]`: drop the first character. -/
def pyDropFirst (s : String) : String :=
  ⟨s.toList.drop 1⟩

/-- Python `str.lower()` (ASCII case mapping suffices for the keys involved). -/
def pyLower (s : String) : String :=
  ⟨s.toList.map Char.toLower⟩

/-- Consume a run of digits, allowing a single `_` between two digits as Python
numeric literals do; returns (value so far, number of digits, rest). -/
def takeDigits : Nat → Nat → List Char → Nat × Nat × List Char
  | acc, cnt, [] => (acc, cnt, [])
  | acc, cnt, c :: rest =>
    if c.isDigit then takeDigits (10 * acc + (c.toNat - 48)) (cnt + 1) rest
    else if c = '_' then
      match rest with
      | d :: rest2 =>
        if d.isDigit then takeDigits (10 * acc + (d.toNat - 48)) (cnt + 1) rest2
        else (acc, cnt, c :: rest)
      | [] => (acc, cnt, c :: rest)
    else (acc, cnt, c :: rest)

/-- A Python `digitpart`: requires a leading digit. -/
def digitPart (l : List Char) : Option (Nat × Nat × List Char) :=
  match l with
  | c :: _ => if c.isDigit then some (takeDigits 0 0 l) else none
  | [] => none

/-- Strip an optional leading sign; `true` means negative. -/
def splitSign : List Char → Bool × List Char
  | '-' :: rest => (true, rest)
  | '+' :: rest => (false, rest)
  | l => (false, l)

/-- Python `int(s)` on a whitespace-stripped character list. -/
def pyIntCore (l : List Char) : Option Int :=
  let p := splitSign l
  match digitPart p.2 with
  | some (v, _, rest) =>
    if rest = [] then some (if p.1 then -(v : Int) else (v : Int)) else none
  | none => none

/-- Python `int(s)` for base 10 (leading/trailing whitespace tolerated). -/
def pyInt (s : String) : Option Int :=
  pyIntCore (stripWsL s.toList)

/-- The value of a Python `float`: a finite value is modelled exactly as a
rational; infinities and NaN are kept symbolic. -/
inductive PyFloat where
  | finite (q : ℚ)
  | infinite (neg : Bool)
  | nan
deriving DecidableEq

/-- Ten to an integer power, as a rational. -/
def pow10Q (e : Int) : ℚ :=
  if 0 ≤ e then (10 : ℚ) ^ e.toNat else 1 / (10 : ℚ) ^ (-e).toNat

/-- Sign factor. -/
def signVal (neg : Bool) : ℚ :=
  if neg then -1 else 1

/-- Python `float(s)` on a whitespace-stripped character list: optional sign,
then `inf`/`infinity`/`nan` (case-insensitive) or a decimal
`[digits][.digits][(e|E)[sign]digits]` with at least one mantissa digit. -/
def pyFloatCore (l : List Char) : Option PyFloat :=
  let p := splitSign l
  if p.2.map Char.toLower = "inf".toList ∨ p.2.map Char.toLower = "infinity".toList then
    some (PyFloat.infinite p.1)
  else if p.2.map Char.toLower = "nan".toList then
    some PyFloat.nan
  else
    let ipr := match digitPart p.2 with
      | some x => x
      | none => (0, 0, p.2)
    let fpr := match ipr.2.2 with
      | '.' :: rest =>
        (match digitPart rest with
         | some x => x
         | none => (0, 0, rest))
      | _ => (0, 0, ipr.2.2)
    if ipr.2.1 = 0 ∧ fpr.2.1 = 0 then none
    else
      let mant : Nat := ipr.1 * 10 ^ fpr.2.1 + fpr.1
      let finiteVal : Int → PyFloat := fun e =>
        PyFloat.finite (signVal p.1 * (mant : ℚ) * pow10Q (e - (fpr.2.1 : Int)))
      match fpr.2.2 with
      | [] => some (finiteVal 0)
      | e :: rest =>
        if e = 'e' ∨ e = 'E' then
          let ep := splitSign rest
          match digitPart ep.2 with
          | some (ev, _, rest3) =>
            if rest3 = [] then
              some (finiteVal (if ep.1 then -(ev : Int) else (ev : Int)))
            else none
          | none => none
        else none

/-- Python `float(s)` (leading/trailing whitespace tolerated). -/
def pyFloat (s : String) : Option PyFloat :=
  pyFloatCore (stripWsL s.toList)

/-- Python `str.split(sep)` on character lists: keeps empty pieces,
`[[]]` for the empty input. -/
def splitOnP (p : Char → Bool) : List Char → List (List Char)
  | [] => [[]]
  | c :: rest =>
    match p c, splitOnP p rest with
    | true, r => [] :: r
    | false, h :: t => (c :: h) :: t
    | false, [] => [[c]]

/-- Python `str.split()` with no argument: split on whitespace runs,
discarding empty pieces. -/
def pySplitWs (s : String) : List String :=
  ((splitOnP Char.isWhitespace s.toList).map (fun l => (⟨l⟩ : String))).filter
    (fun t => t != "")

/-- Python slice `[0::2]`: the elements at even indices. -/
def everyOther {α : Type} : List α → List α
  | [] => []
  | [a] => [a]
  | a :: _ :: rest => a :: everyOther rest

/-- Everything before the last space of a character list
(Python `s.rsplit(' ', 1)[0]` when a space is present). -/
def beforeLastSpaceL (l : List Char) : List Char :=
  ((l.reverse.dropWhile (fun c => c != ' ')).drop 1).reverse

/-- Python `text.rsplit(' ', 1)[0] if ' ' in text else text`. -/
def stripLastSpaceToken (s : String) : String :=
  if s.toList.any (fun c => c == ' ') then ⟨beforeLastSpaceL s.toList⟩ else s

/-- Insert with overwrite into an association list modelling a Python dict
(only lookup matters below, so the overwritten key's position is irrelevant). -/
def dictInsert (d : List (String × String)) (k v : String) : List (String × String) :=
  d.filter (fun p => p.1 ≠ k) ++ [(k, v)]

/-- Python `dict.get`: the value stored at `k`, if any. -/
def dictGet (d : List (String × String)) (k : String) : Option String :=
  (d.find? (fun p => p.1 = k)).map (fun p => p.2)

/-- One catalog listing (`Gift` in `src/main.py`).  The `url` field
(`urljoin(base_url, href)`) belongs to URL resolution, an out-of-scope
transport concern no claim touches, and the `_parser` back-reference is a
session handle, so neither is modelled. -/
structure Gift where
  id : Int
  name : String
  type : String
  price : Option PyFloat
  is_sale : Bool
deriving DecidableEq

/-- A Python value that is either a float or a string
(`Union[float, str]`, the declared type of `OwnershipHistory.price`). -/
inductive PyVal where
  | num (q : ℚ)
  | str (s : String)
deriving DecidableEq

/-- One transaction-history row (`OwnershipHistory` in `src/main.py`). -/
structure OwnershipHistory where
  price : PyVal
  date : String
  buyer : String
deriving DecidableEq

/-- The detail record (`GiftInfo` in `src/main.py`). -/
structure GiftInfo where
  id : Int
  type : String
  owner : String
  model : String
  backdrop : String
  symbol : String
  issued : List String
  ton_price : Option PyFloat
  usd_price : Option PyFloat
  is_sale : Bool
  history : List OwnershipHistory
deriving DecidableEq

/-- One `.tm-grid-item` element of a catalog page, modelled by the texts the
code extracts from it: `item.get('href', '')`; the `.text` of the `.item-num`
and `.item-name` children (`none` when `select_one` finds no element, in which
case the `.text` access raises `AttributeError`); and the
`get_text(strip=True)` of the `.icon-ton` child when present. -/
structure ListingRow where
  href : String
  itemNumText : Option String
  itemNameText : Option String
  iconTonText : Option String
deriving DecidableEq

/-- The uncaught Python exceptions the listing loop can raise. -/
inductive PyError where
  | attributeError
  | valueError
deriving DecidableEq

/-- The expression `href.split('/')[-1].split('-')[0]` assigned to `g_type`:
the segment after the last slash, up to the first dash (Python `split` never
yields an empty list, so the `[-1]` and `[0]` indexings cannot fail). -/
def linkTypeSlug (href : String) : String :=
  ⟨(splitOnP (fun c => c == '-')
      ((splitOnP (fun c => c == '/') href.toList).getLastD [])).headD []⟩

/-- The body of the `for item in items` loop of `FragmentClient.get_gifts`:
build one `Gift` from one grid item, or raise.  `g_id` is
`int(item.select_one('.item-num').text.strip()[1:])`, where a missing element
raises `AttributeError` and a failed `int` raises `ValueError`; the same for
the name cell; the price is `float(text.replace(',', ''))` guarded by
`try/except ValueError`. -/
def extractGift (row : ListingRow) : Except PyError Gift :=
  let g_type : String := linkTypeSlug row.href
  match row.itemNumText with
  | none => .error .attributeError
  | some numText =>
    match pyInt (pyDropFirst (pyStrip numText)) with
    | none => .error .valueError
    | some g_id =>
      match row.itemNameText with
      | none => .error .attributeError
      | some nameText =>
        let pr : Option PyFloat × Bool :=
          match row.iconTonText with
          | none => (none, false)
          | some t =>
            match pyFloat (pyRemoveChar ',' t) with
            | some v => (some v, true)
            | none => (none, false)
        .ok { id := g_id, name := pyStrip nameText, type := g_type,
              price := pr.1, is_sale := pr.2 }

/-- The extraction loop of `FragmentClient.get_gifts` over the selected
`.tm-grid-item` elements, in document order.  An exception raised by one row is
not caught anywhere in the loop, so it aborts the whole traversal. -/
def get_gifts : List ListingRow → Except PyError (List Gift)
  | [] => .ok []
  | row :: rest =>
    match extractGift row with
    | .error e => .error e
    | .ok g =>
      match get_gifts rest with
      | .error e => .error e
      | .ok gs => .ok (g :: gs)

/-- The `.tm-section-bid-info` region of a detail page.  `tonOwnText` is
`some x` iff `select_one('.tm-value')` finds an element, and then `x` is its
first direct-child text node (`find(string=True, recursive=False)`) — nested
elements' text is excluded by construction, `none` when the element has no
direct text node.  `usdText` is the `get_text(strip=True)` of
`.tm-usd-value` when that element is present. -/
structure BidInfo where
  tonOwnText : Option (Option String)
  usdText : Option String
deriving DecidableEq

/-- One detail page, modelled by the cell texts of the selectors
`get_gift_info` uses: `infoRows` are the `td` texts (`get_text(strip=True)`)
of each `.tm-table-fixed tr` row; `historyRows` likewise for
`.tm-table-wrap tbody tr`. -/
structure DetailPage where
  infoRows : List (List String)
  bidInfo : Option BidInfo
  historyRows : List (List String)
deriving DecidableEq

/-- The `info_table` dict: every `.tm-table-fixed tr` row with at least two
cells contributes `info_table[cells[0].get_text(strip=True).lower()] = cells[1]`,
later rows overwriting earlier ones. -/
def buildInfoTable (rows : List (List String)) : List (String × String) :=
  rows.foldl
    (fun acc cells =>
      match cells with
      | k :: v :: _ => dictInsert acc (pyLower k) v
      | _ => acc)
    []

/-- `clean_val` from `src/main.py`: `"Unknown"` when the key is absent,
otherwise `text.rsplit(' ', 1)[0] if ' ' in text else text` on the cell's
stripped text. -/
def clean_val (tbl : List (String × String)) (key : String) : String :=
  match dictGet tbl key with
  | none => "Unknown"
  | some text => stripLastSpaceToken text

/-- The owner field: `info_table.get('owner', BeautifulSoup('', 'lxml'))
.get_text(strip=True) or "Unknown"` — the empty-document default has empty
text, and Python `or` replaces an empty string. -/
def ownerVal (tbl : List (String × String)) : String :=
  let t := (dictGet tbl "owner").getD ""
  if t = "" then "Unknown" else t

/-- The issued list: `issued_data.get_text(strip=True).split()[0::2]` when the
`'issued'` key is present, else `[]`. -/
def issuedOf (tbl : List (String × String)) : List String :=
  match dictGet tbl "issued" with
  | some t => everyOther (pySplitWs t)
  | none => []

/-- The `ton_price`/`is_sale` assignment of `get_gift_info`: skipped when the
bid-info box or the `.tm-value` element is missing or `find` returns no direct
text node (or an empty, hence falsy, one); otherwise
`float(ton_raw.strip().replace(',', ''))` with `ValueError`/`TypeError`
absorbed. -/
def tonOf (b : Option BidInfo) : Option PyFloat × Bool :=
  match b with
  | none => (none, false)
  | some bi =>
    match bi.tonOwnText with
    | none => (none, false)
    | some none => (none, false)
    | some (some raw) =>
      if raw = "" then (none, false)
      else
        match pyFloat (pyRemoveChar ',' (pyStrip raw)) with
        | some v => (some v, true)
        | none => (none, false)

/-- The `usd_price` assignment of `get_gift_info`:
`float(usd_raw.replace('$', '').replace(',', '').replace('~', ''))` with
`ValueError` absorbed, skipped when the box or element is missing. -/
def usdOf (b : Option BidInfo) : Option PyFloat :=
  match b with
  | none => none
  | some bi =>
    match bi.usdText with
    | none => none
    | some t => pyFloat (pyRemoveChar '~' (pyRemoveChar ',' (pyRemoveChar '$' t)))

/-- The history loop of `get_gift_info`: each `.tm-table-wrap tbody tr` row
with at least 3 cells appends one `OwnershipHistory` built from the first three
cells' stripped text, price kept as a string; shorter rows are skipped. -/
def historyOf : List (List String) → List OwnershipHistory
  | [] => []
  | cols :: rest =>
    match cols with
    | c0 :: c1 :: c2 :: _ => ⟨PyVal.str c0, c1, c2⟩ :: historyOf rest
    | _ => historyOf rest

/-- `FragmentClient.get_gift_info` minus the fetch: assemble the `GiftInfo`
record from the parsed detail page and the caller-supplied id and type. -/
def get_gift_info (page : DetailPage) (gift_id : Int) (type_gift : String) : GiftInfo :=
  let tbl := buildInfoTable page.infoRows
  let t := tonOf page.bidInfo
  { id := gift_id
    type := type_gift
    owner := ownerVal tbl
    model := clean_val tbl "model"
    backdrop := clean_val tbl "backdrop"
    symbol := clean_val tbl "symbol"
    issued := issuedOf tbl
    ton_price := t.1
    usd_price := usdOf page.bidInfo
    is_sale := t.2
    history := historyOf page.historyRows }

/-- Fields of the detail record addressed by attribute key, for stating the
`clean_val` claims uniformly over `model`, `backdrop` and `symbol`. -/
def attrField (info : GiftInfo) (key : String) : String :=
  if key = "model" then info.model
  else if key = "backdrop" then info.backdrop
  else info.symbol

/-- A listing row whose id cell is absent, or whose id text does not parse as
an integer after the strip-and-drop-first-character step. -/
def rowIdFails (r : ListingRow) : Prop :=
  r.itemNumText = none ∨
    ∃ t, r.itemNumText = some t ∧ pyInt (pyDropFirst (pyStrip t)) = none

deriving instance DecidableEq for Except

theorem strToList_append (a b : String) : (a ++ b).toList = a.toList ++ b.toList := by
  cases a
  cases b
  rfl

theorem dropWhile_append_all {α : Type} (p : α → Bool) :
    ∀ l1 l2 : List α, (∀ c ∈ l1, p c = true) →
      (l1 ++ l2).dropWhile p = l2.dropWhile p
  | [], _, _ => rfl
  | c :: t, l2, h => by
    have hc : p c = true := h c (List.mem_cons_self c t)
    simp only [List.cons_append, List.dropWhile_cons, hc, if_true]
    exact dropWhile_append_all p t l2 (fun a ha => h a (List.mem_cons_of_mem c ha))

theorem any_beq_false_of_not_mem {c : Char} {l : List Char} (h : c ∉ l) :
    (l.any fun a => a == c) = false := by
  rw [List.any_eq_false]
  intro a ha
  simp only [beq_iff_eq]
  intro hac
  exact h (hac ▸ ha)

theorem stripLastSpaceToken_concat (a b : String) (hb : ' ' ∉ b.toList) :
    stripLastSpaceToken (a ++ " " ++ b) = a := by
  have hl : (a ++ " " ++ b).toList = a.toList ++ ' ' :: b.toList := by
    rw [strToList_append, strToList_append]
    simp
  have hcond : ((a ++ " " ++ b).toList.any fun c => c == ' ') = true := by
    rw [hl]
    exact List.any_eq_true.mpr
      ⟨' ', List.mem_append_right _ (List.mem_cons_self _ _), by simp⟩
  simp only [stripLastSpaceToken, hcond, if_true, hl]
  have hrev : (a.toList ++ ' ' :: b.toList).reverse
      = b.toList.reverse ++ ' ' :: a.toList.reverse := by
    simp
  rw [beforeLastSpaceL, hrev,
    dropWhile_append_all _ b.toList.reverse (' ' :: a.toList.reverse)
      (fun c hc => by
        rw [bne_iff_ne]
        intro he
        exact hb (he ▸ List.mem_reverse.mp hc))]
  simp

theorem stripLastSpaceToken_of_no_space (t : String) (ht : ' ' ∉ t.toList) :
    stripLastSpaceToken t = t := by
  have h := any_beq_false_of_not_mem (c := ' ') ht
  unfold stripLastSpaceToken
  rw [h]
  simp

theorem everyOther_getD {α : Type} (d : α) :
    ∀ l : List α, ∀ i : Nat, (everyOther l).getD i d = l.getD (2 * i) d
  | [], i => by simp [everyOther]
  | [a], i => by
    cases i with
    | zero => simp [everyOther]
    | succ j =>
      have h2 : 2 * (j + 1) = 2 * j + 1 + 1 := by ring
      simp [everyOther, h2, List.getD_cons_succ, List.getD_nil]
  | a :: b :: rest, i => by
    cases i with
    | zero => simp [everyOther]
    | succ j =>
      have ih := everyOther_getD d rest j
      have h2 : 2 * (j + 1) = 2 * j + 1 + 1 := by ring
      simp only [everyOther, List.getD_cons_succ, h2]
      exact ih

theorem everyOther_length {α : Type} :
    ∀ l : List α, (everyOther l).length = (l.length + 1) / 2
  | [] => by simp [everyOther]
  | [_] => by simp [everyOther]
  | _ :: _ :: rest => by
    have ih := everyOther_length rest
    simp only [everyOther, List.length_cons]
    omega

theorem splitOnP_ne_nil (p : Char → Bool) : ∀ l : List Char, splitOnP p l ≠ []
  | [] => by simp [splitOnP]
  | c :: rest => by
    cases hpc : p c <;> cases hsp : splitOnP p rest <;> simp [splitOnP, hpc, hsp]

theorem splitOnP_no_sep (p : Char → Bool) :
    ∀ l : List Char, (∀ c ∈ l, p c = false) → splitOnP p l = [l]
  | [], _ => rfl
  | c :: rest, h => by
    have hc : p c = false := h c (List.mem_cons_self c rest)
    have ih := splitOnP_no_sep p rest (fun a ha => h a (List.mem_cons_of_mem c ha))
    simp [splitOnP, hc, ih]

theorem splitOnP_length_two (p : Char → Bool) (c : Char) (hc : p c = true) :
    ∀ l1 l2 : List Char, 2 ≤ (splitOnP p (l1 ++ c :: l2)).length
  | [], l2 => by
    have h1 : splitOnP p l2 ≠ [] := splitOnP_ne_nil p l2
    have h2 : 1 ≤ (splitOnP p l2).length := List.length_pos.mpr h1
    simp only [List.nil_append, splitOnP, hc, List.length_cons]
    omega
  | a :: l1, l2 => by
    have ih := splitOnP_length_two p c hc l1 l2
    cases hpa : p a with
    | true =>
      simp only [List.cons_append, splitOnP, hpa, List.append_eq, List.length_cons]
      omega
    | false =>
      cases hsp : splitOnP p (l1 ++ c :: l2) with
      | nil => exact absurd hsp (splitOnP_ne_nil p _)
      | cons h t =>
        rw [hsp] at ih
        simp only [List.cons_append, splitOnP, hpa, List.append_eq, hsp]
        simp only [List.length_cons] at ih ⊢
        omega

theorem getLastD_of_ne_nil {α : Type} (l : List α) (h : l ≠ []) (d d' : α) :
    l.getLastD d = l.getLastD d' := by
  cases l with
  | nil => exact absurd rfl h
  | cons a t => rw [List.getLastD_cons, List.getLastD_cons]

theorem splitOnP_getLastD (p : Char → Bool) (c : Char) (hc : p c = true) :
    ∀ (l1 l2 : List Char) (d : List Char),
      (splitOnP p (l1 ++ c :: l2)).getLastD d = (splitOnP p l2).getLastD d
  | [], l2, d => by
    simp only [List.nil_append, splitOnP, hc]
    rw [List.getLastD_cons]
    exact getLastD_of_ne_nil _ (splitOnP_ne_nil p l2) [] d
  | a :: l1, l2, d => by
    have ih := splitOnP_getLastD p c hc l1 l2 d
    cases hpa : p a with
    | true =>
      simp only [List.cons_append, splitOnP, hpa, List.append_eq]
      rw [List.getLastD_cons]
      rw [getLastD_of_ne_nil _ (splitOnP_ne_nil p (l1 ++ c :: l2)) [] d]
      exact ih
    | false =>
      cases hsp : splitOnP p (l1 ++ c :: l2) with
      | nil => exact absurd hsp (splitOnP_ne_nil p _)
      | cons h t =>
        have hlen := splitOnP_length_two p c hc l1 l2
        rw [hsp] at hlen ih
        have ht : t ≠ [] := by
          intro hteq
          rw [hteq] at hlen
          simp at hlen
        simp only [List.cons_append, splitOnP, hpa, List.append_eq, hsp]
        rw [List.getLastD_cons] at ih ⊢
        rw [getLastD_of_ne_nil t ht (a :: h) h]
        exact ih

theorem splitOnP_headD (p : Char → Bool) (c : Char) (hc : p c = true) :
    ∀ (l1 l2 : List Char) (d : List Char), (∀ a ∈ l1, p a = false) →
      (splitOnP p (l1 ++ c :: l2)).headD d = l1
  | [], l2, d, _ => by
    simp [splitOnP, hc]
  | a :: l1, l2, d, h => by
    have hpa : p a = false := h a (List.mem_cons_self a l1)
    have ih := splitOnP_headD p c hc l1 l2 d (fun x hx => h x (List.mem_cons_of_mem a hx))
    cases hsp : splitOnP p (l1 ++ c :: l2) with
    | nil => exact absurd hsp (splitOnP_ne_nil p _)
    | cons hh t =>
      rw [hsp] at ih
      simp only [List.cons_append, splitOnP, hpa, List.append_eq, hsp]
      simp only [List.headD_cons] at ih ⊢
      rw [ih]

theorem get_gifts_error_of_mem (rows : List ListingRow) (r : ListingRow) (e : PyError)
    (hr : r ∈ rows) (he : extractGift r = .error e) :
    ∃ e', get_gifts rows = .error e' := by
  induction rows with
  | nil => cases hr
  | cons a rest ih =>
    rcases List.mem_cons.mp hr with h | h
    · subst h
      exact ⟨e, by simp [get_gifts, he]⟩
    · cases ha : extractGift a with
      | error e2 => exact ⟨e2, by simp [get_gifts, ha]⟩
      | ok g =>
        obtain ⟨e', h'⟩ := ih h
        exact ⟨e', by simp [get_gifts, ha, h']⟩

theorem tonOf_snd (b : Option BidInfo) : (tonOf b).2 = (tonOf b).1.isSome := by
  rcases b with _ | bi
  · rfl
  rcases bi with ⟨tt, ut⟩
  rcases tt with _ | ot
  · rfl
  rcases ot with _ | raw
  · rfl
  simp only [tonOf]
  split
  · rfl
  · split <;> rfl

theorem historyOf_eq_filter_map :
    ∀ rows : List (List String),
      historyOf rows
        = (rows.filter fun cols => decide (3 ≤ cols.length)).map
            (fun cols =>
              { price := PyVal.str (cols.getD 0 ""), date := cols.getD 1 "",
                buyer := cols.getD 2 "" })
  | [] => rfl
  | cols :: rest => by
    have ih := historyOf_eq_filter_map rest
    rcases cols with _ | ⟨c0, _ | ⟨c1, _ | ⟨c2, cr⟩⟩⟩
    · simp [historyOf, List.filter_cons, ih]
    · simp [historyOf, List.filter_cons, ih]
    · simp [historyOf, List.filter_cons, ih]
    · have hc : decide (3 ≤ (c0 :: c1 :: c2 :: cr).length) = true := by
        simp only [decide_eq_true_eq, List.length_cons]
        omega
      simp [historyOf, List.filter_cons, hc, ih, List.getD]

theorem pyFloat_comma_1500 : pyFloat (pyRemoveChar ',' "1,500") = some (PyFloat.finite 1500) := by
  have h : pyFloat (pyRemoveChar ',' "1,500")
      = some (PyFloat.finite (signVal false * ((1500 : Nat) : ℚ) * pow10Q 0)) := rfl
  rw [h]
  norm_num [signVal, pow10Q]

/-- C1 (counterexample): a catalog page whose first row has no id cell and
whose second row is fully well-formed aborts with `AttributeError`; no `Gift`
is produced even for the good remaining row, contradicting drop-and-continue. -/
theorem get_gifts_bad_id_aborts_cex :
    get_gifts [⟨"/gifts/plushpepe-1", none, some "Plush Pepe", some "1,500"⟩,
               ⟨"/gifts/plushpepe-2", some "#2", some "Plush Pepe", some "1,500"⟩]
      = .error .attributeError := rfl

/-- C1 (amended): a listing row whose id cell is absent raises `AttributeError`
and one whose id text is non-numeric raises `ValueError`; either way the
uncaught exception aborts extraction of the whole page, producing no listings
at all rather than skipping the row and continuing. -/
theorem get_gifts_bad_id_aborts (rows : List ListingRow) (r : ListingRow)
    (hr : r ∈ rows) (hfail : rowIdFails r) :
    ∃ e, get_gifts rows = .error e := by
  have hrow : ∃ e0, extractGift r = .error e0 := by
    rcases hfail with h | ⟨t, ht, hparse⟩
    · exact ⟨.attributeError, by simp [extractGift, h]⟩
    · exact ⟨.valueError, by simp [extractGift, ht, hparse]⟩
  obtain ⟨e0, he0⟩ := hrow
  exact get_gifts_error_of_mem rows r e0 hr he0

theorem get_gifts_bad_id_aborts_w :
    ∃ e, get_gifts [⟨"/gifts/x-1", none, none, none⟩] = .error e :=
  get_gifts_bad_id_aborts _ ⟨"/gifts/x-1", none, none, none⟩
    (List.mem_singleton.mpr rfl) (Or.inl rfl)

/-- C2 (counterexample): a row with a valid id but no name cell does not yield
a degraded `ListingSummary`; the `.text` access on the missing name cell raises
`AttributeError` and the page aborts. -/
theorem get_gifts_missing_name_cex :
    get_gifts [⟨"/gifts/plushpepe-3", some "#3", none, some "1,500"⟩]
      = .error .attributeError := rfl

/-- C2 (amended): a row missing the price cell still yields a `Gift` with
`price` absent and `is_sale` false, but a row missing the name cell raises
`AttributeError`, failing that row (and with it the page) instead of degrading
the name to a default. -/
theorem get_gifts_missing_cell (row rowNoName : ListingRow) (numText numText2 : String)
    (gid gid2 : Int)
    (h1 : row.itemNumText = some numText)
    (h2 : pyInt (pyDropFirst (pyStrip numText)) = some gid)
    (h3 : rowNoName.itemNumText = some numText2)
    (h4 : pyInt (pyDropFirst (pyStrip numText2)) = some gid2)
    (h5 : rowNoName.itemNameText = none) :
    (∀ nameText, row.itemNameText = some nameText → row.iconTonText = none →
      ∃ g, extractGift row = .ok g ∧ g.price = none ∧ g.is_sale = false
        ∧ g.name = pyStrip nameText)
    ∧ extractGift rowNoName = .error .attributeError := by
  constructor
  · intro nameText hn hi
    have hok : extractGift row
        = .ok (Gift.mk gid (pyStrip nameText) (linkTypeSlug row.href) none false) := by
      simp [extractGift, h1, h2, hn, hi]
    exact ⟨_, hok, rfl, rfl, rfl⟩
  · simp [extractGift, h3, h4, h5]

theorem get_gifts_missing_cell_w :
    (∃ g, extractGift ⟨"/gifts/x-5", some "#5", some "Plush", none⟩ = .ok g
      ∧ g.price = none ∧ g.is_sale = false ∧ g.name = "Plush")
    ∧ extractGift ⟨"/gifts/x-5", some "#5", none, none⟩ = .error .attributeError := by
  have h := get_gifts_missing_cell ⟨"/gifts/x-5", some "#5", some "Plush", none⟩
      ⟨"/gifts/x-5", some "#5", none, none⟩ "#5" "#5" 5 5 rfl (by decide) rfl (by decide) rfl
  refine ⟨?_, h.2⟩
  obtain ⟨g, hg, hp, hs, hn⟩ := h.1 "Plush" rfl rfl
  exact ⟨g, hg, hp, hs, by rw [hn]; decide⟩

/-- C3: every record either extractor constructs satisfies the invariant
`is_sale ⇔ the primary price field is present`: a `Gift` has `is_sale` true iff
its `price` parsed successfully and is present, a `GiftInfo` has `is_sale` true
iff `ton_price` is present, and `usd_price` carries no such cross-invariant
(it can be present with `ton_price` absent, and absent with it present). -/
theorem is_sale_iff_price_present (row : ListingRow) (g : Gift) (page : DetailPage)
    (gid : Int) (ty : String) (h : extractGift row = .ok g) :
    g.is_sale = g.price.isSome
    ∧ (get_gift_info page gid ty).is_sale = (get_gift_info page gid ty).ton_price.isSome
    ∧ (∃ p1 : DetailPage, (get_gift_info p1 gid ty).usd_price.isSome = true
        ∧ (get_gift_info p1 gid ty).ton_price = none)
    ∧ (∃ p2 : DetailPage, (get_gift_info p2 gid ty).ton_price.isSome = true
        ∧ (get_gift_info p2 gid ty).usd_price = none) := by
  refine ⟨?_, ?_, ?_, ?_⟩
  · rcases row with ⟨href, numT, nameT, iconT⟩
    cases numT with
    | none => simp [extractGift] at h
    | some nt =>
      cases hpi : pyInt (pyDropFirst (pyStrip nt)) with
      | none => simp [extractGift, hpi] at h
      | some gid0 =>
        cases nameT with
        | none => simp [extractGift, hpi] at h
        | some nmt =>
          cases iconT with
          | none =>
            simp only [extractGift, hpi] at h
            injection h with h2
            subst h2
            rfl
          | some t =>
            cases hpf : pyFloat (pyRemoveChar ',' t) with
            | none =>
              simp only [extractGift, hpi, hpf] at h
              injection h with h2
              subst h2
              rfl
            | some v =>
              simp only [extractGift, hpi, hpf] at h
              injection h with h2
              subst h2
              rfl
  · show (tonOf page.bidInfo).2 = (tonOf page.bidInfo).1.isSome
    exact tonOf_snd page.bidInfo
  · exact ⟨⟨[], some ⟨none, some "~$45.20"⟩, []⟩, rfl, rfl⟩
  · exact ⟨⟨[], some ⟨some (some "1,500"), none⟩, []⟩, rfl, rfl⟩

theorem is_sale_iff_price_present_w :
    ∃ g, extractGift ⟨"/gifts/y-9", some "#9", some "Y", some "1,500"⟩ = .ok g
      ∧ g.is_sale = g.price.isSome :=
  ⟨Gift.mk 9 "Y" "y" (pyFloat (pyRemoveChar ',' "1,500")) true, rfl,
   (is_sale_iff_price_present ⟨"/gifts/y-9", some "#9", some "Y", some "1,500"⟩
     (Gift.mk 9 "Y" "y" (pyFloat (pyRemoveChar ',' "1,500")) true)
     ⟨[], none, []⟩ 0 "" rfl).1⟩

/-- C4: for a listing row with a price-icon cell (id and name cells intact),
the produced `Gift` stores exactly the comma-stripped parse of the price text:
a parse success sets `price` to the parsed number with `is_sale` true, a parse
failure leaves `price` absent with `is_sale` false, and no error is raised in
either case — a malformed price never aborts the row or the page. -/
theorem get_gifts_price_parse (row : ListingRow) (numText nameText t : String) (gid : Int)
    (h1 : row.itemNumText = some numText)
    (h2 : pyInt (pyDropFirst (pyStrip numText)) = some gid)
    (h3 : row.itemNameText = some nameText)
    (h4 : row.iconTonText = some t) :
    ∃ g, extractGift row = .ok g ∧ g.price = pyFloat (pyRemoveChar ',' t)
      ∧ g.is_sale = (pyFloat (pyRemoveChar ',' t)).isSome := by
  cases hp : pyFloat (pyRemoveChar ',' t) with
  | none =>
    have hok : extractGift row
        = .ok (Gift.mk gid (pyStrip nameText) (linkTypeSlug row.href) none false) := by
      simp [extractGift, h1, h2, h3, h4, hp]
    exact ⟨_, hok, rfl, rfl⟩
  | some v =>
    have hok : extractGift row
        = .ok (Gift.mk gid (pyStrip nameText) (linkTypeSlug row.href) (some v) true) := by
      simp [extractGift, h1, h2, h3, h4, hp]
    exact ⟨_, hok, rfl, rfl⟩

theorem get_gifts_price_parse_w :
    ∃ g, extractGift ⟨"/gifts/plushpepe-1234", some "#7", some "Plush Pepe", some "1,500"⟩
        = .ok g ∧ g.price = some (PyFloat.finite 1500) ∧ g.is_sale = true := by
  obtain ⟨g, hok, hp, hs⟩ := get_gifts_price_parse
    ⟨"/gifts/plushpepe-1234", some "#7", some "Plush Pepe", some "1,500"⟩
    "#7" "Plush Pepe" "1,500" 7 rfl (by decide) rfl rfl
  refine ⟨g, hok, ?_, ?_⟩
  · rw [hp, pyFloat_comma_1500]
  · rw [hs, pyFloat_comma_1500]
    rfl

/-- C5: `ton_price` is parsed from the primary price element's own direct text
node only (nested children's text is excluded by construction of `BidInfo`),
trimmed and with thousands separators stripped, and `is_sale` is exactly the
parse's success flag; when the bid-info block is absent, or the `.tm-value`
element is absent or has no direct text node, `ton_price` is absent and
`is_sale` is false, with no error propagated in any case. -/
theorem get_gift_info_ton_price (page : DetailPage) (gid : Int) (ty : String)
    (bi : BidInfo) (raw : String)
    (h1 : page.bidInfo = some bi)
    (h2 : bi.tonOwnText = some (some raw))
    (h3 : raw ≠ "") :
    ((get_gift_info page gid ty).ton_price = pyFloat (pyRemoveChar ',' (pyStrip raw))
      ∧ (get_gift_info page gid ty).is_sale
          = (pyFloat (pyRemoveChar ',' (pyStrip raw))).isSome)
    ∧ (∀ page2 : DetailPage, page2.bidInfo = none →
        (get_gift_info page2 gid ty).ton_price = none
          ∧ (get_gift_info page2 gid ty).is_sale = false)
    ∧ (∀ (page3 : DetailPage) (bi3 : BidInfo), page3.bidInfo = some bi3 →
        bi3.tonOwnText = none ∨ bi3.tonOwnText = some none →
        (get_gift_info page3 gid ty).ton_price = none
          ∧ (get_gift_info page3 gid ty).is_sale = false) := by
  refine ⟨?_, ?_, ?_⟩
  · have hton : tonOf page.bidInfo
        = (pyFloat (pyRemoveChar ',' (pyStrip raw)),
           (pyFloat (pyRemoveChar ',' (pyStrip raw))).isSome) := by
      rw [h1]
      simp only [tonOf, h2]
      rw [if_neg h3]
      cases hp : pyFloat (pyRemoveChar ',' (pyStrip raw)) <;> simp
    constructor
    · show (tonOf page.bidInfo).1 = pyFloat (pyRemoveChar ',' (pyStrip raw))
      rw [hton]
    · show (tonOf page.bidInfo).2 = (pyFloat (pyRemoveChar ',' (pyStrip raw))).isSome
      rw [hton]
  · intro page2 h
    have hton : tonOf page2.bidInfo = (none, false) := by
      rw [h]
      rfl
    exact ⟨by show (tonOf page2.bidInfo).1 = none; rw [hton],
           by show (tonOf page2.bidInfo).2 = false; rw [hton]⟩
  · intro page3 bi3 h hcase
    have hton : tonOf page3.bidInfo = (none, false) := by
      rw [h]
      rcases hcase with hc | hc <;> simp [tonOf, hc]
    exact ⟨by show (tonOf page3.bidInfo).1 = none; rw [hton],
           by show (tonOf page3.bidInfo).2 = false; rw [hton]⟩

theorem get_gift_info_ton_price_w :
    (get_gift_info ⟨[], some ⟨some (some "1,500"), none⟩, []⟩ 1 "t").ton_price
        = some (PyFloat.finite 1500)
    ∧ (get_gift_info ⟨[], some ⟨some (some "1,500"), none⟩, []⟩ 1 "t").is_sale = true := by
  have h := (get_gift_info_ton_price ⟨[], some ⟨some (some "1,500"), none⟩, []⟩ 1 "t"
      ⟨some (some "1,500"), none⟩ "1,500" rfl rfl (by decide)).1
  have hval : pyFloat (pyRemoveChar ',' (pyStrip "1,500")) = some (PyFloat.finite 1500) := by
    have hs : pyStrip "1,500" = "1,500" := by decide
    rw [hs, pyFloat_comma_1500]
  exact ⟨by rw [h.1, hval], by rw [h.2, hval]; rfl⟩

/-- C6: for each of `model`, `backdrop` and `symbol`: an absent key yields the
literal "Unknown"; a present cell text of the form `a ++ " " ++ b` with `b`
space-free (so the shown space is the last one) yields `a`, everything before
the last space; a present text containing no space is returned whole. -/
theorem get_gift_info_attr_clean (page : DetailPage) (gid : Int) (ty : String)
    (key : String) (hkey : key = "model" ∨ key = "backdrop" ∨ key = "symbol") :
    (dictGet (buildInfoTable page.infoRows) key = none →
      attrField (get_gift_info page gid ty) key = "Unknown")
    ∧ (∀ a b : String, dictGet (buildInfoTable page.infoRows) key = some (a ++ " " ++ b) →
        ' ' ∉ b.toList → attrField (get_gift_info page gid ty) key = a)
    ∧ (∀ t : String, dictGet (buildInfoTable page.infoRows) key = some t →
        ' ' ∉ t.toList → attrField (get_gift_info page gid ty) key = t) := by
  have hfield : attrField (get_gift_info page gid ty) key
      = clean_val (buildInfoTable page.infoRows) key := by
    rcases hkey with h | h | h <;> subst h <;> simp [attrField, get_gift_info]
  refine ⟨?_, ?_, ?_⟩
  · intro h
    rw [hfield]
    simp [clean_val, h]
  · intro a b hab hb
    rw [hfield]
    simp only [clean_val, hab]
    exact stripLastSpaceToken_concat a b hb
  · intro t htl hsp
    rw [hfield]
    simp only [clean_val, htl]
    exact stripLastSpaceToken_of_no_space t hsp

theorem get_gift_info_attr_clean_w :
    attrField (get_gift_info
        ⟨[["Model", "Vintage 3%"], ["Backdrop", "Rare"]], none, []⟩ 1 "t") "model"
      = "Vintage"
    ∧ attrField (get_gift_info
        ⟨[["Model", "Vintage 3%"], ["Backdrop", "Rare"]], none, []⟩ 1 "t") "backdrop"
      = "Rare"
    ∧ attrField (get_gift_info
        ⟨[["Model", "Vintage 3%"], ["Backdrop", "Rare"]], none, []⟩ 1 "t") "symbol"
      = "Unknown" := by
  refine ⟨?_, ?_, ?_⟩
  · exact (get_gift_info_attr_clean
      ⟨[["Model", "Vintage 3%"], ["Backdrop", "Rare"]], none, []⟩ 1 "t" "model"
      (Or.inl rfl)).2.1 "Vintage" "3%" (by decide) (by decide)
  · exact (get_gift_info_attr_clean
      ⟨[["Model", "Vintage 3%"], ["Backdrop", "Rare"]], none, []⟩ 1 "t" "backdrop"
      (Or.inr (Or.inl rfl))).2.2 "Rare" (by decide) (by decide)
  · exact (get_gift_info_attr_clean
      ⟨[["Model", "Vintage 3%"], ["Backdrop", "Rare"]], none, []⟩ 1 "t" "symbol"
      (Or.inr (Or.inr rfl))).1 (by decide)

/-- C7: `issued` is obtained by splitting the "issued" cell's text on
whitespace runs and keeping exactly the tokens at even indices: the result has
one entry per pair of tokens and its `i`-th entry is the `2*i`-th token; when
the key is absent, `issued` is empty. -/
theorem get_gift_info_issued (page : DetailPage) (gid : Int) (ty : String) :
    (dictGet (buildInfoTable page.infoRows) "issued" = none →
      (get_gift_info page gid ty).issued = [])
    ∧ (∀ t : String, dictGet (buildInfoTable page.infoRows) "issued" = some t →
        (get_gift_info page gid ty).issued.length = ((pySplitWs t).length + 1) / 2
        ∧ ∀ i : Nat, (get_gift_info page gid ty).issued.getD i ""
            = (pySplitWs t).getD (2 * i) "") := by
  constructor
  · intro h
    show issuedOf (buildInfoTable page.infoRows) = []
    simp [issuedOf, h]
  · intro t ht
    have hiss : (get_gift_info page gid ty).issued = everyOther (pySplitWs t) := by
      show issuedOf (buildInfoTable page.infoRows) = _
      simp [issuedOf, ht]
    rw [hiss]
    exact ⟨everyOther_length _, fun i => everyOther_getD "" _ i⟩

theorem get_gift_info_issued_w :
    (get_gift_info ⟨[["Issued", "1,234 of 10,000"]], none, []⟩ 1 "t").issued.getD 0 ""
        = (pySplitWs "1,234 of 10,000").getD 0 ""
    ∧ (get_gift_info ⟨[["Issued", "1,234 of 10,000"]], none, []⟩ 1 "t").issued.getD 1 ""
        = (pySplitWs "1,234 of 10,000").getD 2 ""
    ∧ (get_gift_info ⟨[["Issued", "1,234 of 10,000"]], none, []⟩ 1 "t").issued
        = ["1,234", "10,000"] := by
  have h := (get_gift_info_issued ⟨[["Issued", "1,234 of 10,000"]], none, []⟩ 1 "t").2
      "1,234 of 10,000" (by decide)
  exact ⟨h.2 0, h.2 1, by decide⟩

/-- C8: for a listing row that extracts successfully, `type` is the segment of
the link path after the last slash truncated at (not including) its first
dash, and the whole segment when it contains no dash. -/
theorem get_gifts_item_type (row : ListingRow) (pre seg numText nameText : String)
    (gid : Int)
    (h1 : row.href = pre ++ "/" ++ seg)
    (h2 : '/' ∉ seg.toList)
    (h3 : row.itemNumText = some numText)
    (h4 : pyInt (pyDropFirst (pyStrip numText)) = some gid)
    (h5 : row.itemNameText = some nameText) :
    (∀ s1 s2 : String, seg = s1 ++ "-" ++ s2 → '-' ∉ s1.toList →
      ∃ g, extractGift row = .ok g ∧ g.type = s1)
    ∧ ('-' ∉ seg.toList → ∃ g, extractGift row = .ok g ∧ g.type = seg) := by
  have hok : ∃ g, extractGift row = .ok g ∧ g.type = linkTypeSlug row.href := by
    cases hic : row.iconTonText with
    | none =>
      exact ⟨Gift.mk gid (pyStrip nameText) (linkTypeSlug row.href) none false,
        by simp [extractGift, h3, h4, h5, hic], rfl⟩
    | some t =>
      cases hp : pyFloat (pyRemoveChar ',' t) with
      | none =>
        exact ⟨Gift.mk gid (pyStrip nameText) (linkTypeSlug row.href) none false,
          by simp [extractGift, h3, h4, h5, hic, hp], rfl⟩
      | some v =>
        exact ⟨Gift.mk gid (pyStrip nameText) (linkTypeSlug row.href) (some v) true,
          by simp [extractGift, h3, h4, h5, hic, hp], rfl⟩
  have hseg : (splitOnP (fun c => c == '/') row.href.toList).getLastD [] = seg.toList := by
    have hl : row.href.toList = pre.toList ++ '/' :: seg.toList := by
      rw [h1, strToList_append, strToList_append]
      have hsl : "/".toList = ['/'] := rfl
      rw [hsl, List.append_assoc]
      rfl
    rw [hl, splitOnP_getLastD (fun c => c == '/') '/' rfl pre.toList seg.toList []]
    rw [splitOnP_no_sep _ seg.toList
      (fun a ha => by rw [beq_eq_false_iff_ne]; intro he; subst he; exact h2 ha)]
    rfl
  constructor
  · intro s1 s2 hseq hs1
    obtain ⟨g, hg, hty⟩ := hok
    refine ⟨g, hg, ?_⟩
    rw [hty]
    simp only [linkTypeSlug]
    rw [hseg]
    have hl2 : seg.toList = s1.toList ++ '-' :: s2.toList := by
      rw [hseq, strToList_append, strToList_append]
      have hdl : "-".toList = ['-'] := rfl
      rw [hdl, List.append_assoc]
      rfl
    rw [hl2, splitOnP_headD (fun c => c == '-') '-' rfl s1.toList s2.toList []
      (fun a ha => by rw [beq_eq_false_iff_ne]; intro he; subst he; exact hs1 ha)]
    rfl
  · intro hnd
    obtain ⟨g, hg, hty⟩ := hok
    refine ⟨g, hg, ?_⟩
    rw [hty]
    simp only [linkTypeSlug]
    rw [hseg, splitOnP_no_sep _ seg.toList
      (fun a ha => by rw [beq_eq_false_iff_ne]; intro he; subst he; exact hnd ha)]
    rfl

theorem get_gifts_item_type_w :
    ∃ g, extractGift ⟨"/gifts/plushpepe-1234", some "#8", some "Plush", none⟩ = .ok g
      ∧ g.type = "plushpepe" :=
  (get_gifts_item_type ⟨"/gifts/plushpepe-1234", some "#8", some "Plush", none⟩
      "/gifts" "plushpepe-1234" "#8" "Plush" 8 (by decide) (by decide) rfl (by decide)
      rfl).1 "plushpepe" "1234" (by decide) (by decide)

/-- C9: every history-table row with at least 3 cells yields one
`OwnershipHistory` whose `price`, `date` and `buyer` are the first three cells'
trimmed text in that order, with the price kept as text (the string
constructor of `PyVal`, no numeric coercion); rows with fewer than 3 cells are
skipped without failing the page, and the output preserves the rows' order. -/
theorem get_gift_info_history (page : DetailPage) (gid : Int) (ty : String) :
    (get_gift_info page gid ty).history
      = (page.historyRows.filter fun cols => decide (3 ≤ cols.length)).map
          (fun cols =>
            { price := PyVal.str (cols.getD 0 ""), date := cols.getD 1 "",
              buyer := cols.getD 2 "" }) := by
  show historyOf page.historyRows = _
  exact historyOf_eq_filter_map page.historyRows

/-- C10: the "Unknown" default for `model`, `backdrop` and `symbol` applies
only when the key is entirely absent: a present key whose cell text is empty
yields the empty string, not "Unknown" — unlike `owner`, where an empty cell
text falls back to "Unknown" through Python `or`. -/
theorem get_gift_info_empty_attr (page : DetailPage) (gid : Int) (ty : String) :
    (dictGet (buildInfoTable page.infoRows) "model" = some "" →
      (get_gift_info page gid ty).model = "")
    ∧ (dictGet (buildInfoTable page.infoRows) "backdrop" = some "" →
      (get_gift_info page gid ty).backdrop = "")
    ∧ (dictGet (buildInfoTable page.infoRows) "symbol" = some "" →
      (get_gift_info page gid ty).symbol = "")
    ∧ (dictGet (buildInfoTable page.infoRows) "owner" = some "" →
      (get_gift_info page gid ty).owner = "Unknown") := by
  refine ⟨?_, ?_, ?_, ?_⟩
  · intro h
    show clean_val (buildInfoTable page.infoRows) "model" = ""
    simp only [clean_val, h]
    decide
  · intro h
    show clean_val (buildInfoTable page.infoRows) "backdrop" = ""
    simp only [clean_val, h]
    decide
  · intro h
    show clean_val (buildInfoTable page.infoRows) "symbol" = ""
    simp only [clean_val, h]
    decide
  · intro h
    show ownerVal (buildInfoTable page.infoRows) = "Unknown"
    simp [ownerVal, h]

theorem get_gift_info_empty_attr_w :
    (get_gift_info ⟨[["Model", ""], ["Owner", ""]], none, []⟩ 1 "t").model = ""
    ∧ (get_gift_info ⟨[["Model", ""], ["Owner", ""]], none, []⟩ 1 "t").owner
        = "Unknown" := by
  have h := get_gift_info_empty_attr ⟨[["Model", ""], ["Owner", ""]], none, []⟩ 1 "t"
  exact ⟨h.1 (by decide), h.2.2.2 (by decide)⟩
